import Mathlib

/-!
# Skynet framing layer: a shallow embedding

Embedding of `src/lib.rs` of the `skynet` crate: `SerializedTcpStream::{recv, send}`
and `SerializedUdpSocket::{recv_from, send_to}`.

Modelling conventions:
* Bytes are `Nat`s (values `< 256` on the wire); byte sequences are `List Nat`.
* bincode's default configuration serializes a `u64` as 8 fixed-width
  little-endian bytes (the crate's own `test_u64_size` test checks this).
  `natToLe8` / `le8ToNat` embed that codec; `deserializeU64` embeds
  `bincode::deserialize::<u64>` from a byte slice, which fails with
  `ErrorKind::Io(UnexpectedEof)` when fewer than 8 bytes are available and
  ignores trailing bytes otherwise.
* The generic payload codec (`bincode::deserialize::<R>` / `serialize`) is a
  parameter: `recv` takes the payload decoder as a function, and round-trip
  statements quantify over a `Codec` whose laws concrete bincode instances
  satisfy (`u64Codec`, `u8Codec`, `boolCodec` below are concrete instances).
* The non-blocking `read_to_end` step of `recv` is modelled by a `ReadOutcome`:
  the bytes that were appended to the buffer before the call returned, plus
  the `io::Error` the call ended with (`none` for a clean EOF return).
  `read_to_end` keeps already-read bytes in the buffer even when it returns
  an error, and the Rust code ignores the returned `Result` entirely
  (`if ... .is_ok() {}`), so the model appends the bytes unconditionally.
* The bound check `self.buffer.len() < 8 + size` and the slice/crop indices
  of `recv` are usize arithmetic in the source: when the decoded prefix is
  at least `2^64 - 8` the `8 + size` addition overflows — a panic in debug
  builds, and in release the wrapped bound passes and the slice
  `[8 .. 8 + size]` (end below start) panics. `recvCore` therefore returns
  a distinguished `panicked` outcome there; it carries the buffer contents,
  which the panic leaves exactly as appended (the crop never runs).
* The UDP socket is modelled by its queue of pending datagrams. `recv_from`'s
  `debug_assert_eq!` is modelled as a hard failure (`panicked`), matching the
  build configuration the crate's tests run under.
-/

namespace Skynet

/-- The `std::io::ErrorKind` values relevant to this layer. -/
inductive IoErrorKind where
  | wouldBlock
  | unexpectedEof
  | connectionReset
  | other (code : Nat)
deriving DecidableEq, Repr

/-- `bincode::ErrorKind` (boxed as `bincode::Error`), restricted to the
variants reachable through this library: an io error, or a payload byte
that is not a valid encoding of the requested type. -/
inductive BincodeError where
  | io (kind : IoErrorKind)
  | invalidBoolEncoding (b : Nat)
deriving DecidableEq, Repr

/-- bincode's fixed-width little-endian encoding of a `u64`: exactly 8 bytes,
the value taken modulo `2^64`. -/
def natToLe8 (n : Nat) : List Nat :=
  [n % 256, n / 256 % 256, n / 65536 % 256, n / 16777216 % 256,
   n / 4294967296 % 256, n / 1099511627776 % 256,
   n / 281474976710656 % 256, n / 72057594037927936 % 256]

/-- Value of a little-endian byte list (used on exactly-8-byte lists). -/
def le8ToNat (bs : List Nat) : Nat :=
  bs.foldr (fun b acc => b + 256 * acc) 0

/-- `bincode::deserialize::<u64>` from a byte slice: needs 8 bytes, otherwise
fails with `ErrorKind::Io(UnexpectedEof)`; trailing bytes are ignored. -/
def deserializeU64 (bytes : List Nat) : Except BincodeError Nat :=
  if bytes.length < 8 then .error (.io .unexpectedEof)
  else .ok (le8ToNat (bytes.take 8))

/-- `bincode::deserialize::<u8>` from a byte slice: one byte, trailing ignored. -/
def deserializeU8 (bytes : List Nat) : Except BincodeError Nat :=
  match bytes with
  | [] => .error (.io .unexpectedEof)
  | b :: _ => .ok b

/-- `bincode::deserialize::<bool>` from a byte slice: byte `0` is `false`,
byte `1` is `true`, anything else is `InvalidBoolEncoding`. -/
def deserializeBool (bytes : List Nat) : Except BincodeError Bool :=
  match bytes with
  | [] => .error (.io .unexpectedEof)
  | 0 :: _ => .ok false
  | 1 :: _ => .ok true
  | b :: _ => .error (.invalidBoolEncoding b)

/-- A serialization codec for one message type: `bincode::serialize` and
`bincode::deserialize::<α>` (for values whose serialization succeeds). -/
structure Codec (α : Type) where
  encode : α → List Nat
  decode : List Nat → Except BincodeError α

/-- bincode's `u64` codec. -/
def u64Codec : Codec Nat := ⟨natToLe8, deserializeU64⟩

/-- bincode's `u8` codec. -/
def u8Codec : Codec Nat := ⟨fun n => [n % 256], deserializeU8⟩

/-- bincode's `bool` codec. -/
def boolCodec : Codec Bool := ⟨fun b => [if b then 1 else 0], deserializeBool⟩

/-- Outcome of the non-blocking `read_to_end` call at the top of `recv`:
the bytes it appended to the buffer before returning, and the io error it
returned with (`none` when it returned `Ok`, e.g. at EOF). `read_to_end`
keeps bytes read before an error, so `bytes` is appended in every case. -/
structure ReadOutcome where
  bytes : List Nat
  err : Option IoErrorKind

/-- Outcome of one `SerializedTcpStream::recv` call: a normal return with
the bincode result and the new buffer contents, or a panic. Both carry the
receive-buffer contents at that point — a panic happens before the crop at
the end of `recv`, so the Vec still holds exactly the appended bytes. -/
inductive StreamRecvResult (α : Type) where
  | panicked (buffer : List Nat)
  | returned (result : Except BincodeError α) (buffer : List Nat)

/-- The receive-buffer contents after a `recv` call, on both the normal and
the panic outcome. -/
def StreamRecvResult.buffer : StreamRecvResult α → List Nat
  | .panicked b => b
  | .returned _ b => b

/-- The buffer-processing part of `SerializedTcpStream::recv` (everything
after the `read_to_end` append), operating on the appended buffer `buf`:

* `bincode::deserialize::<u64>(&self.buffer)?` — propagated on failure;
* `if self.buffer.len() < 8 + size` — the `8 + size` is usize arithmetic:
  for `size ≥ 2^64 - 8` it overflows and the call panics (debug: overflow
  panic at the addition; release: the wrapped bound is below the length, so
  the slice `[8 .. 8 + size]` with end below start panics). Otherwise, a
  short buffer returns `Io(WouldBlock)`;
* `bincode::deserialize(&self.buffer[8 .. 8 + size])?` — propagated on failure;
* `self.buffer = self.buffer[8 + size ..].to_vec()` — crop, return the message.
-/
def recvCore (buf : List Nat) (decodePayload : List Nat → Except BincodeError α) :
    StreamRecvResult α :=
  match deserializeU64 buf with
  | .error e => .returned (.error e) buf
  | .ok size =>
    if 2 ^ 64 ≤ 8 + size then
      .panicked buf
    else if buf.length < 8 + size then
      .returned (.error (.io .wouldBlock)) buf
    else
      match decodePayload ((buf.drop 8).take size) with
      | .error e => .returned (.error e) buf
      | .ok message => .returned (.ok message) (buf.drop (8 + size))

/-- `SerializedTcpStream::recv`: appends the bytes the non-blocking read
produced (the returned `Result` of `read_to_end` is discarded by
`if ... .is_ok() {}`), then processes the buffer. -/
def recv (buffer : List Nat) (rd : ReadOutcome)
    (decodePayload : List Nat → Except BincodeError α) :
    StreamRecvResult α :=
  recvCore (buffer ++ rd.bytes) decodePayload

/-- `SerializedTcpStream::send`: writes the 8-byte bincode encoding of
`serialized_size(data)` followed by the encoded payload. The value returned
is the byte sequence put on the wire. -/
def send (c : Codec α) (v : α) : List Nat :=
  natToLe8 (c.encode v).length ++ c.encode v

/-- One UDP datagram sitting in a socket's receive queue. Addresses are
modelled as `Nat`. -/
structure Datagram where
  payload : List Nat
  sender : Nat
deriving DecidableEq, Repr

/-- The 8-byte array filled by `self.socket.peek(&mut size)`: `peek` copies
`min 8 (payload.length)` bytes of the first queued datagram into a
zero-initialized `[0; 8]` array; the rest stays `0`. -/
def peekBytes (payload : List Nat) : List Nat :=
  payload.take 8 ++ List.replicate (8 - payload.length) 0

/-- Result of `SerializedUdpSocket::recv_from`: a message with its sender's
address, a bincode error, or a failed `debug_assert_eq!`. -/
inductive RecvFromResult (α : Type) where
  | panicked
  | error (e : BincodeError)
  | ok (message : α) (sender : Nat)
deriving DecidableEq, Repr

/-- `SerializedUdpSocket::recv_from`:

* `self.socket.peek(&mut size)?` — with no queued datagram the non-blocking
  peek fails with `WouldBlock`, propagated as `ErrorKind::Io`;
* `bincode::deserialize::<u64>(&size)?` — the array is always 8 bytes, so
  this is `le8ToNat` of the peeked bytes;
* `recv_from` into `vec![0; 8 + size + 1]` — reads
  `min payload.length (8 + size + 1)` bytes, truncating a longer datagram;
* `debug_assert_eq!(read_size, size + 8)` — modelled as a hard failure;
* `bincode::deserialize(&buffer[8..8+size])?` and return with the address.
-/
def recvFrom (queue : List Datagram)
    (decodePayload : List Nat → Except BincodeError α) : RecvFromResult α :=
  match queue with
  | [] => .error (.io .wouldBlock)
  | d :: _ =>
    let size := le8ToNat (peekBytes d.payload)
    let bufLen := 8 + size + 1
    let readSize := min d.payload.length bufLen
    let buffer := d.payload.take bufLen ++ List.replicate (bufLen - d.payload.length) 0
    if readSize ≠ size + 8 then .panicked
    else
      match decodePayload ((buffer.drop 8).take size) with
      | .error e => .error e
      | .ok message => .ok message d.sender

/-- `SerializedUdpSocket::send_to`: builds one contiguous buffer holding the
8-byte bincode encoding of `serialized_size(data)` followed by the payload,
and issues exactly one `socket.send_to(&buffer, addr)`. The result is the
list of datagram sends the call performs. -/
def sendTo (c : Codec α) (v : α) (addr : Nat) : List (List Nat × Nat) :=
  [(natToLe8 (c.encode v).length ++ c.encode v, addr)]


/-! ## Helper lemmas about the length-prefix codec and `recvCore` -/

theorem natToLe8_length (n : Nat) : (natToLe8 n).length = 8 := rfl

theorem le8ToNat_natToLe8 (n : Nat) : le8ToNat (natToLe8 n) = n % 2 ^ 64 := by
  simp [le8ToNat, natToLe8]
  omega

theorem take8_frame (n : Nat) (rest : List Nat) :
    (natToLe8 n ++ rest).take 8 = natToLe8 n := by
  have h := List.take_left (natToLe8 n) rest
  rwa [natToLe8_length] at h

theorem drop8_frame (n : Nat) (rest : List Nat) :
    (natToLe8 n ++ rest).drop 8 = rest := by
  have h := List.drop_left (natToLe8 n) rest
  rwa [natToLe8_length] at h

theorem deserializeU64_frame (n : Nat) (rest : List Nat) :
    deserializeU64 (natToLe8 n ++ rest) = .ok (n % 2 ^ 64) := by
  unfold deserializeU64
  rw [if_neg (by simp [natToLe8]), take8_frame, le8ToNat_natToLe8]

theorem recvCore_eof (buf : List Nat) (d : List Nat → Except BincodeError α)
    (h : buf.length < 8) :
    recvCore buf d = .returned (.error (.io .unexpectedEof)) buf := by
  unfold recvCore
  have hdes : deserializeU64 buf = .error (.io .unexpectedEof) := by
    unfold deserializeU64
    rw [if_pos h]
  simp only [hdes]

theorem recvCore_overflow (buf : List Nat) (d : List Nat → Except BincodeError α)
    (h8 : 8 ≤ buf.length) (hof : 2 ^ 64 ≤ 8 + le8ToNat (buf.take 8)) :
    recvCore buf d = .panicked buf := by
  unfold recvCore
  have hdes : deserializeU64 buf = .ok (le8ToNat (buf.take 8)) := by
    unfold deserializeU64
    rw [if_neg (by omega)]
  simp only [hdes]
  rw [if_pos hof]

theorem recvCore_wouldBlock (buf : List Nat) (d : List Nat → Except BincodeError α)
    (h8 : 8 ≤ buf.length) (hof : 8 + le8ToNat (buf.take 8) < 2 ^ 64)
    (hlt : buf.length < 8 + le8ToNat (buf.take 8)) :
    recvCore buf d = .returned (.error (.io .wouldBlock)) buf := by
  unfold recvCore
  have hdes : deserializeU64 buf = .ok (le8ToNat (buf.take 8)) := by
    unfold deserializeU64
    rw [if_neg (by omega)]
  simp only [hdes]
  rw [if_neg (by omega), if_pos hlt]

theorem recvCore_ok (buf : List Nat) (d : List Nat → Except BincodeError α) (m : α)
    (h8 : 8 ≤ buf.length) (hof : 8 + le8ToNat (buf.take 8) < 2 ^ 64)
    (hfull : 8 + le8ToNat (buf.take 8) ≤ buf.length)
    (hdec : d ((buf.drop 8).take (le8ToNat (buf.take 8))) = .ok m) :
    recvCore buf d = .returned (.ok m) (buf.drop (8 + le8ToNat (buf.take 8))) := by
  unfold recvCore
  have hdes : deserializeU64 buf = .ok (le8ToNat (buf.take 8)) := by
    unfold deserializeU64
    rw [if_neg (by omega)]
  simp only [hdes]
  rw [if_neg (by omega), if_neg (by omega)]
  simp only [hdec]

theorem recvCore_decodeFail (buf : List Nat) (d : List Nat → Except BincodeError α)
    (e : BincodeError)
    (h8 : 8 ≤ buf.length) (hof : 8 + le8ToNat (buf.take 8) < 2 ^ 64)
    (hfull : 8 + le8ToNat (buf.take 8) ≤ buf.length)
    (hdec : d ((buf.drop 8).take (le8ToNat (buf.take 8))) = .error e) :
    recvCore buf d = .returned (.error e) buf := by
  unfold recvCore
  have hdes : deserializeU64 buf = .ok (le8ToNat (buf.take 8)) := by
    unfold deserializeU64
    rw [if_neg (by omega)]
  simp only [hdes]
  rw [if_neg (by omega), if_neg (by omega)]
  simp only [hdec]

theorem recvCore_frame (d : List Nat → Except BincodeError α) (p t : List Nat)
    (hlen : 8 + p.length < 2 ^ 64) :
    recvCore (natToLe8 p.length ++ (p ++ t)) d =
      match d p with
      | .error e => .returned (.error e) (natToLe8 p.length ++ (p ++ t))
      | .ok m => .returned (.ok m) t := by
  have hmod : p.length % 2 ^ 64 = p.length := Nat.mod_eq_of_lt (by omega)
  have hdrop : (natToLe8 p.length ++ (p ++ t)).drop (8 + p.length) = t := by
    rw [← List.drop_drop, drop8_frame, List.drop_left]
  unfold recvCore
  rw [deserializeU64_frame, hmod]
  simp only [List.length_append, natToLe8_length]
  rw [if_neg (by omega), if_neg (by omega), drop8_frame, List.take_left, hdrop]

theorem recvFrom_frame (d : List Nat → Except BincodeError α) (p : List Nat)
    (src : Nat) (q : List Datagram) (hlen : p.length < 2 ^ 64) :
    recvFrom (⟨natToLe8 p.length ++ p, src⟩ :: q) d =
      match d p with
      | .error e => .error e
      | .ok m => .ok m src := by
  have hmod : p.length % 2 ^ 64 = p.length := Nat.mod_eq_of_lt hlen
  have hplen : (natToLe8 p.length ++ p).length = 8 + p.length := by
    simp [natToLe8]
    omega
  have hsize : le8ToNat (peekBytes (natToLe8 p.length ++ p)) = p.length := by
    unfold peekBytes
    rw [take8_frame, hplen, Nat.sub_eq_zero_of_le (by omega), List.replicate_zero,
      List.append_nil, le8ToNat_natToLe8, hmod]
  have htake : (natToLe8 p.length ++ p).take (8 + p.length + 1) = natToLe8 p.length ++ p := by
    apply List.take_of_length_le
    omega
  have hbuf : (natToLe8 p.length ++ p).take (8 + p.length + 1) ++
      List.replicate (8 + p.length + 1 - (8 + p.length)) 0 =
      natToLe8 p.length ++ (p ++ [0]) := by
    have h1 : 8 + p.length + 1 - (8 + p.length) = 1 := by omega
    rw [htake, h1, List.append_assoc]
    rfl
  unfold recvFrom
  simp only [hsize, hplen]
  rw [if_neg (by omega), hbuf, drop8_frame, List.take_left]


/-! ## Claims -/

/-- C1: if the receive buffer, after appending the bytes currently available
from the transport, holds at least `8 + size` bytes — `size` being the `u64`
decoded from its first 8 bytes — and the payload bytes `[8, 8 + size)` decode
as the requested type, then `recv` returns the decoded message and removes
exactly bytes `[0, 8 + size)` from the head of the buffer, shifting all
remaining bytes to the front in order. The buffer length is below `2^64`, as
every program-realizable `Vec` length (a usize) is; together with the
full-frame bound this keeps `8 + size` inside usize. -/
theorem recv_complete_frame (buffer : List Nat) (rd : ReadOutcome)
    (d : List Nat → Except BincodeError α) (m : α)
    (h8 : 8 ≤ (buffer ++ rd.bytes).length)
    (hreal : (buffer ++ rd.bytes).length < 2 ^ 64)
    (hfull : 8 + le8ToNat ((buffer ++ rd.bytes).take 8) ≤ (buffer ++ rd.bytes).length)
    (hdec : d (((buffer ++ rd.bytes).drop 8).take
        (le8ToNat ((buffer ++ rd.bytes).take 8))) = .ok m) :
    recv buffer rd d = .returned (.ok m)
      ((buffer ++ rd.bytes).drop (8 + le8ToNat ((buffer ++ rd.bytes).take 8))) := by
  unfold recv
  exact recvCore_ok _ _ m h8 (by omega) hfull hdec

/-- C1 witness: a buffer holding exactly one frame (`u64` payload `99`). -/
theorem recv_complete_frame_witness :
    recv [] ⟨natToLe8 8 ++ natToLe8 99, none⟩ deserializeU64 = .returned (.ok 99) [] := by
  have h := recv_complete_frame [] ⟨natToLe8 8 ++ natToLe8 99, none⟩ deserializeU64 99
    (by decide) (by decide) (by decide) rfl
  exact h.trans rfl

/-- C2: round-trip. A value sent with `send` and delivered into the peer's
receive buffer is returned by the peer's `recv`; a value sent with `send_to`
(the single datagram it issues) and received with `recv_from` is returned
with the sender's address. Holds for every codec whose decode inverts its
encode and whose encoded frame (payload plus the 8-byte prefix) has a
program-realizable (usize) length. -/
theorem send_recv_roundTrip (c : Codec α) (v : α) (dst src : Nat)
    (hdec : c.decode (c.encode v) = .ok v)
    (hlen : 8 + (c.encode v).length < 2 ^ 64) :
    recv [] ⟨send c v, none⟩ c.decode = .returned (.ok v) [] ∧
    ∀ bytes target, (bytes, target) ∈ sendTo c v dst →
      recvFrom [⟨bytes, src⟩] c.decode = .ok v src := by
  constructor
  · unfold recv send
    have hshape : ([] : List Nat) ++ (natToLe8 (c.encode v).length ++ c.encode v) =
        natToLe8 (c.encode v).length ++ (c.encode v ++ []) := by
      simp
    rw [hshape, recvCore_frame c.decode (c.encode v) [] hlen, hdec]
  · intro bytes target hmem
    have hbytes : bytes = natToLe8 (c.encode v).length ++ c.encode v := by
      simp [sendTo] at hmem
      exact hmem.1
    subst hbytes
    rw [recvFrom_frame c.decode (c.encode v) src [] (by omega), hdec]

/-- C2 witness: the `u8` codec at value `99` round-trips over both the
stream endpoint and the datagram endpoint. -/
theorem send_recv_roundTrip_witness :
    recv [] ⟨send u8Codec 99, none⟩ u8Codec.decode = .returned (.ok 99) [] ∧
    recvFrom [⟨natToLe8 1 ++ [99], 7⟩] u8Codec.decode = .ok 99 7 := by
  have h := send_recv_roundTrip u8Codec 99 3 7 rfl (by decide)
  exact ⟨h.1, h.2 (natToLe8 1 ++ [99]) 3 (by simp [sendTo] ; rfl)⟩


/-- C3 counterexample: with 3 bytes buffered (and nothing more available),
`recv` returns the propagated prefix-decode error
`ErrorKind::Io(UnexpectedEof)`, which is not `WouldBlock`. -/
theorem recv_short_buffer_counterexample :
    recv [] ⟨[1, 2, 3], none⟩ deserializeU64 =
      .returned (.error (.io .unexpectedEof)) [1, 2, 3] ∧
    IoErrorKind.unexpectedEof ≠ IoErrorKind.wouldBlock := ⟨rfl, by decide⟩

/-- C3 amended: with fewer than 8 bytes buffered after the append, `recv`
returns the prefix-decode failure itself — `ErrorKind::Io(UnexpectedEof)` —
rather than `WouldBlock` (given 8 bytes, decoding a `u64` never fails, so
the prefix-decode-failure case is exactly the short-buffer case). -/
theorem recv_short_buffer (buffer : List Nat) (rd : ReadOutcome)
    (d : List Nat → Except BincodeError α)
    (h : (buffer ++ rd.bytes).length < 8) :
    recv buffer rd d = .returned (.error (.io .unexpectedEof)) (buffer ++ rd.bytes) := by
  unfold recv
  exact recvCore_eof _ _ h

/-- C3 amended witness: an empty buffer with no incoming bytes. -/
theorem recv_short_buffer_witness :
    recv [] ⟨[], none⟩ deserializeU64 = .returned (.error (.io .unexpectedEof)) [] := by
  have h := recv_short_buffer [] ⟨[], none⟩ deserializeU64 (by decide)
  exact h.trans rfl

/-- C4 counterexample: a buffer of eight `0xFF` bytes is a complete prefix
decoding to `size = 2^64 - 1`, with fewer than `8 + size` total bytes, yet
`recv` does not return `WouldBlock`: the `8 + size` usize addition
overflows (debug: overflow panic; release: wrapped bound, then the slice
`[8 .. 8 + size]` with end below start panics), so the call panics. -/
theorem recv_incomplete_payload_counterexample :
    recv [] ⟨List.replicate 8 255, none⟩ deserializeU64 =
      .panicked (List.replicate 8 255) ∧
    (StreamRecvResult.panicked (List.replicate 8 255) : StreamRecvResult Nat) ≠
      .returned (.error (.io .wouldBlock)) (List.replicate 8 255) :=
  ⟨rfl, by simp⟩

/-- C4 amended: if the appended buffer holds the 8-byte prefix decoding to
`size` with `8 + size` below `2^64` (so the usize addition does not
overflow) but fewer than `8 + size` total bytes, `recv` returns `WouldBlock`
and no message (and the buffer is left as appended); for
`size ≥ 2^64 - 8` the `8 + size` addition overflows usize and the call
panics instead. -/
theorem recv_incomplete_payload (buffer : List Nat) (rd : ReadOutcome)
    (d : List Nat → Except BincodeError α)
    (h8 : 8 ≤ (buffer ++ rd.bytes).length)
    (hof : 8 + le8ToNat ((buffer ++ rd.bytes).take 8) < 2 ^ 64)
    (hlt : (buffer ++ rd.bytes).length < 8 + le8ToNat ((buffer ++ rd.bytes).take 8)) :
    recv buffer rd d = .returned (.error (.io .wouldBlock)) (buffer ++ rd.bytes) := by
  unfold recv
  exact recvCore_wouldBlock _ _ h8 hof hlt

/-- C4 amended witness: a complete prefix announcing 100 payload bytes, with
only 2 of them arrived. -/
theorem recv_incomplete_payload_witness :
    recv [] ⟨natToLe8 100 ++ [1, 2], none⟩ deserializeU64 =
      .returned (.error (.io .wouldBlock)) (natToLe8 100 ++ [1, 2]) := by
  have h := recv_incomplete_payload [] ⟨natToLe8 100 ++ [1, 2], none⟩ deserializeU64
    (by decide) (by decide) (by decide)
  exact h.trans rfl


/-- C5 counterexample: two complete one-byte-payload frames followed by a
single byte of a third frame. The first two polls yield the two messages,
but the third poll returns `Io(UnexpectedEof)` — not `WouldBlock` — because
the leftover partial frame is shorter than the 8-byte prefix. A fourth poll
after the rest of frame 3 arrives does yield message 3. -/
theorem recv_carry_over_counterexample :
    recv (natToLe8 1 ++ [10] ++ (natToLe8 1 ++ [20]) ++ [1]) ⟨[], none⟩ deserializeU8 =
      .returned (.ok 10) (natToLe8 1 ++ [20] ++ [1]) ∧
    recv (natToLe8 1 ++ [20] ++ [1]) ⟨[], none⟩ deserializeU8 = .returned (.ok 20) [1] ∧
    recv [1] ⟨[], none⟩ deserializeU8 = .returned (.error (.io .unexpectedEof)) [1] ∧
    IoErrorKind.unexpectedEof ≠ IoErrorKind.wouldBlock ∧
    recv [1] ⟨[0, 0, 0, 0, 0, 0, 0, 30], none⟩ deserializeU8 = .returned (.ok 30) [] :=
  ⟨rfl, rfl, rfl, by decide, rfl⟩

/-- C5 amended: buffer carry-over holds as claimed provided the trailing
partial third frame contains at least its full 8-byte prefix and all three
payload lengths are program-realizable, below `2^64 - 8` (so the `8 + size`
usize addition never overflows): starting from two complete frames plus such
a partial frame with nothing further available, three polls yield message 1,
message 2 and `WouldBlock`, and a fourth poll after the remaining bytes of
frame 3 arrive yields message 3 (when the partial frame is shorter than
8 bytes the third poll instead returns the `Io(UnexpectedEof)` prefix-decode
error, and for a prefix announcing `2^64 - 8` or more bytes the poll would
panic on the overflow). -/
theorem recv_carry_over (d : List Nat → Except BincodeError α)
    (p₁ p₂ p₃ pre rest : List Nat) (m₁ m₂ m₃ : α)
    (h₁ : 8 + p₁.length < 2 ^ 64) (h₂ : 8 + p₂.length < 2 ^ 64)
    (h₃ : 8 + p₃.length < 2 ^ 64)
    (hd₁ : d p₁ = .ok m₁) (hd₂ : d p₂ = .ok m₂) (hd₃ : d p₃ = .ok m₃)
    (hsplit : natToLe8 p₃.length ++ p₃ = pre ++ rest)
    (hpre8 : 8 ≤ pre.length)
    (hprelt : pre.length < 8 + p₃.length) :
    recv (natToLe8 p₁.length ++ (p₁ ++ (natToLe8 p₂.length ++ (p₂ ++ pre))))
        ⟨[], none⟩ d =
      .returned (.ok m₁) (natToLe8 p₂.length ++ (p₂ ++ pre)) ∧
    recv (natToLe8 p₂.length ++ (p₂ ++ pre)) ⟨[], none⟩ d = .returned (.ok m₂) pre ∧
    recv pre ⟨[], none⟩ d = .returned (.error (.io .wouldBlock)) pre ∧
    recv pre ⟨rest, none⟩ d = .returned (.ok m₃) [] := by
  have htakepre : pre.take 8 = natToLe8 p₃.length := by
    have h := congrArg (List.take 8) hsplit
    rw [take8_frame, List.take_append_eq_append_take,
      Nat.sub_eq_zero_of_le hpre8, List.take_zero, List.append_nil] at h
    exact h.symm
  refine ⟨?_, ?_, ?_, ?_⟩
  · unfold recv
    rw [List.append_nil, recvCore_frame d p₁ _ h₁, hd₁]
  · unfold recv
    rw [List.append_nil, recvCore_frame d p₂ _ h₂, hd₂]
  · unfold recv
    rw [List.append_nil]
    apply recvCore_wouldBlock _ _ hpre8
    · rw [htakepre, le8ToNat_natToLe8, Nat.mod_eq_of_lt (by omega)]
      exact h₃
    · rw [htakepre, le8ToNat_natToLe8, Nat.mod_eq_of_lt (by omega)]
      exact hprelt
  · unfold recv
    show recvCore (pre ++ rest) d = .returned (.ok m₃) []
    rw [← hsplit]
    have hshape : natToLe8 p₃.length ++ p₃ = natToLe8 p₃.length ++ (p₃ ++ []) := by
      rw [List.append_nil]
    rw [hshape, recvCore_frame d p₃ [] h₃, hd₃]

/-- C5 amended witness: one-byte payloads `10`, `20`, `30`; the partial
third frame is exactly its 8-byte prefix, the remainder is the payload. -/
theorem recv_carry_over_witness :
    recv (natToLe8 1 ++ ([10] ++ (natToLe8 1 ++ ([20] ++ natToLe8 1)))) ⟨[], none⟩
        deserializeU8 = .returned (.ok 10) (natToLe8 1 ++ ([20] ++ natToLe8 1)) ∧
    recv (natToLe8 1 ++ ([20] ++ natToLe8 1)) ⟨[], none⟩ deserializeU8 =
      .returned (.ok 20) (natToLe8 1) ∧
    recv (natToLe8 1) ⟨[], none⟩ deserializeU8 =
      .returned (.error (.io .wouldBlock)) (natToLe8 1) ∧
    recv (natToLe8 1) ⟨[30], none⟩ deserializeU8 = .returned (.ok 30) [] := by
  have h := recv_carry_over deserializeU8 [10] [20] [30] (natToLe8 1) [30] 10 20 30
    (by decide) (by decide) (by decide) rfl rfl rfl rfl (by decide) (by decide)
  exact h


/-- C6: receive-buffer invariant. On every call, `recv` first appends the
newly read bytes at the tail (`buffer ++ rd.bytes`) and then either leaves
that buffer intact, or — exactly when it holds a fully decoded frame whose
payload decodes and whose decoded message is returned — drops precisely the
first `8 + size` bytes from the head, `size` being the value decoded from
the frame's prefix. No byte is discarded except at such a frame boundary;
this also covers the `8 + size` overflow panic path, where the crop never
runs and the buffer keeps exactly the appended bytes. -/
theorem recv_buffer_invariant (buffer : List Nat) (rd : ReadOutcome)
    (d : List Nat → Except BincodeError α) :
    (recv buffer rd d).buffer = buffer ++ rd.bytes ∨
    (8 ≤ (buffer ++ rd.bytes).length ∧
     8 + le8ToNat ((buffer ++ rd.bytes).take 8) ≤ (buffer ++ rd.bytes).length ∧
     (∃ m, d (((buffer ++ rd.bytes).drop 8).take
         (le8ToNat ((buffer ++ rd.bytes).take 8))) = .ok m ∧
       recv buffer rd d = .returned (.ok m)
         ((buffer ++ rd.bytes).drop (8 + le8ToNat ((buffer ++ rd.bytes).take 8)))) ∧
     (recv buffer rd d).buffer =
       (buffer ++ rd.bytes).drop (8 + le8ToNat ((buffer ++ rd.bytes).take 8))) := by
  by_cases hlt : (buffer ++ rd.bytes).length < 8
  · left
    unfold recv
    rw [recvCore_eof _ _ hlt]
    rfl
  · have h8 : 8 ≤ (buffer ++ rd.bytes).length := Nat.le_of_not_lt hlt
    by_cases hof : 2 ^ 64 ≤ 8 + le8ToNat ((buffer ++ rd.bytes).take 8)
    · left
      unfold recv
      rw [recvCore_overflow _ _ h8 hof]
      rfl
    · have hof2 : 8 + le8ToNat ((buffer ++ rd.bytes).take 8) < 2 ^ 64 :=
        Nat.lt_of_not_le hof
      by_cases hfull : (buffer ++ rd.bytes).length <
          8 + le8ToNat ((buffer ++ rd.bytes).take 8)
      · left
        unfold recv
        rw [recvCore_wouldBlock _ _ h8 hof2 hfull]
        rfl
      · have hge : 8 + le8ToNat ((buffer ++ rd.bytes).take 8) ≤
            (buffer ++ rd.bytes).length := Nat.le_of_not_lt hfull
        cases hd : d (((buffer ++ rd.bytes).drop 8).take
            (le8ToNat ((buffer ++ rd.bytes).take 8))) with
        | error e =>
          left
          unfold recv
          rw [recvCore_decodeFail _ _ e h8 hof2 hge hd]
          rfl
        | ok m =>
          right
          refine ⟨h8, hge, ⟨m, rfl, ?_⟩, ?_⟩
          · unfold recv
            rw [recvCore_ok _ _ m h8 hof2 hge hd]
          · unfold recv
            rw [recvCore_ok _ _ m h8 hof2 hge hd]
            rfl

/-- C7 counterexample: the read step's `Result` is discarded wholesale
(`if ... .is_ok() {}`), so a genuine transport failure such as
`ConnectionReset` is swallowed, not surfaced: with a complete frame already
buffered, `recv` still returns the message. -/
theorem recv_read_error_swallowed :
    recv (natToLe8 8 ++ natToLe8 5) ⟨[], some .connectionReset⟩ deserializeU64 =
      .returned (.ok 5) [] ∧
    (Except.ok 5 : Except BincodeError Nat) ≠ .error (.io .connectionReset) :=
  ⟨rfl, by simp⟩

/-- C7 amended: `recv` ignores the result of the transport read entirely —
its outcome is the same whatever io error (connection reset included, not
only the non-fatal no-data condition) the read step ends with; processing
always continues on the buffered data and no read-step error is surfaced. -/
theorem recv_ignores_read_error (buffer bytes : List Nat) (e e' : Option IoErrorKind)
    (d : List Nat → Except BincodeError α) :
    recv buffer ⟨bytes, e⟩ d = recv buffer ⟨bytes, e'⟩ d := rfl


/-- C8: `send_to` builds one contiguous buffer — the 8-byte encoded length
followed by the encoded payload, the prefix decoding back to exactly the
payload's byte length — and issues exactly one datagram send of that buffer
to the given address. -/
theorem sendTo_single_frame (c : Codec α) (v : α) (addr : Nat)
    (hlen : (c.encode v).length < 2 ^ 64) :
    sendTo c v addr = [(natToLe8 (c.encode v).length ++ c.encode v, addr)] ∧
    deserializeU64 (natToLe8 (c.encode v).length ++ c.encode v) =
      .ok (c.encode v).length ∧
    (natToLe8 (c.encode v).length ++ c.encode v).length = 8 + (c.encode v).length := by
  refine ⟨rfl, ?_, ?_⟩
  · rw [deserializeU64_frame, Nat.mod_eq_of_lt hlen]
  · simp [natToLe8]
    omega

/-- C8 witness: the `u8` codec at value `7`. -/
theorem sendTo_single_frame_witness :
    sendTo u8Codec 7 3 = [(natToLe8 1 ++ [7], 3)] ∧
    deserializeU64 (natToLe8 1 ++ [7]) = .ok 1 ∧
    (natToLe8 1 ++ [7]).length = 9 :=
  sendTo_single_frame u8Codec 7 3 (by decide)

/-- C9: `recv_from` checks — as a `debug_assert_eq!` that fails hard rather
than producing a recoverable error — that the number of bytes the consuming
receive obtained equals `8 + size`, `size` being the value decoded from the
peeked 8-byte prefix; on a mismatch it panics without decoding, and when the
count matches (the datagram is exactly `8 + size` bytes) it decodes bytes
`[8, 8 + size)` as the message. -/
theorem recvFrom_asserts_length (d : Datagram) (q : List Datagram)
    (dec : List Nat → Except BincodeError α) :
    (min d.payload.length (8 + le8ToNat (peekBytes d.payload) + 1) ≠
        le8ToNat (peekBytes d.payload) + 8 →
      recvFrom (d :: q) dec = .panicked) ∧
    (d.payload.length = 8 + le8ToNat (peekBytes d.payload) →
      recvFrom (d :: q) dec =
        match dec ((d.payload.drop 8).take (le8ToNat (peekBytes d.payload))) with
        | .error e => .error e
        | .ok m => .ok m d.sender) := by
  constructor
  · intro h
    simp only [recvFrom]
    rw [if_pos h]
  · intro h
    have hsize8 : 8 ≤ d.payload.length := by omega
    have htake : d.payload.take (8 + le8ToNat (peekBytes d.payload) + 1) = d.payload :=
      List.take_of_length_le (by omega)
    have hrep : 8 + le8ToNat (peekBytes d.payload) + 1 - d.payload.length = 1 := by omega
    have hslice : ((d.payload ++ [0]).drop 8).take (le8ToNat (peekBytes d.payload)) =
        (d.payload.drop 8).take (le8ToNat (peekBytes d.payload)) := by
      rw [List.drop_append_eq_append_drop, Nat.sub_eq_zero_of_le hsize8, List.drop_zero]
      have hlen2 : (d.payload.drop 8).length = le8ToNat (peekBytes d.payload) := by
        rw [List.length_drop]
        omega
      rw [← hlen2, List.take_left, hlen2, List.take_of_length_le (le_of_eq hlen2)]
    simp only [recvFrom]
    rw [if_neg (by omega), htake, hrep]
    show (match dec (((d.payload ++ List.replicate 1 0).drop 8).take
        (le8ToNat (peekBytes d.payload))) with
      | .error e => RecvFromResult.error e
      | .ok m => RecvFromResult.ok m d.sender) = _
    rw [show List.replicate 1 (0 : Nat) = [0] from rfl, hslice]

/-- C9 witness: an 8-byte datagram announcing a 5-byte payload it does not
carry makes `recv_from` panic; a well-formed 16-byte datagram carrying the
`u64` value `42` is decoded from bytes `[8, 16)`. -/
theorem recvFrom_asserts_length_witness :
    recvFrom [⟨natToLe8 5, 7⟩] deserializeU64 = .panicked ∧
    recvFrom [⟨natToLe8 8 ++ natToLe8 42, 7⟩] deserializeU64 = .ok 42 7 := by
  constructor
  · exact (recvFrom_asserts_length ⟨natToLe8 5, 7⟩ [] deserializeU64).1 (by decide)
  · have h := (recvFrom_asserts_length ⟨natToLe8 8 ++ natToLe8 42, 7⟩ []
      deserializeU64).2 (by decide)
    exact h.trans rfl

/-- C10: decode-failure atomicity. When the appended buffer holds a complete
frame whose payload bytes fail to decode as the requested type, `recv`
returns that decode error and consumes nothing: the buffer keeps all its
bytes (append included), so the next call re-attempts the same frame. The
buffer length is below `2^64`, as every program-realizable `Vec` length (a
usize) is. -/
theorem recv_decodeFail_atomic (buffer : List Nat) (rd : ReadOutcome)
    (d : List Nat → Except BincodeError α) (e : BincodeError)
    (h8 : 8 ≤ (buffer ++ rd.bytes).length)
    (hreal : (buffer ++ rd.bytes).length < 2 ^ 64)
    (hfull : 8 + le8ToNat ((buffer ++ rd.bytes).take 8) ≤ (buffer ++ rd.bytes).length)
    (hdec : d (((buffer ++ rd.bytes).drop 8).take
        (le8ToNat ((buffer ++ rd.bytes).take 8))) = .error e) :
    recv buffer rd d = .returned (.error e) (buffer ++ rd.bytes) := by
  unfold recv
  exact recvCore_decodeFail _ _ e h8 (by omega) hfull hdec

/-- C10 witness: a complete frame whose 1-byte payload `2` is not a valid
`bool` encoding; the buffer is left intact. -/
theorem recv_decodeFail_atomic_witness :
    recv (natToLe8 1 ++ [2]) ⟨[], none⟩ deserializeBool =
      .returned (.error (.invalidBoolEncoding 2)) (natToLe8 1 ++ [2]) := by
  have h := recv_decodeFail_atomic (natToLe8 1 ++ [2]) ⟨[], none⟩ deserializeBool
    (.invalidBoolEncoding 2) (by decide) (by decide) (by decide) (by rfl)
  exact h.trans rfl

end Skynet
